import Mathlib

/-!
# FantaPay ledger core — shallow embedding

A shallow embedding of the ledger/payment core of `backend/server.py`
(FantaPay).  Monetary amounts are modelled as integers in the currency's
minor unit (euro cents), matching the spec's data model ("non-negative
decimal, currency-minor-unit precision"); the source uses Python floats
for euro amounts, and every claim under study is an order/sum fact that
is invariant under this exact scaling.  MongoDB collections become
association lists; `$set` updates become absolute-value updates of every
matching entry; timestamps (`created_at`, `updated_at`, `paid_at`) and
display strings (transaction `description`, invite codes) are
presentation details no claim depends on and are omitted from the
records.

Each endpoint handler is translated in source statement order as a
function `LedgerState → args → Except Err α × LedgerState`: an
`HTTPException` raised before any database write returns the input state
unchanged, mirroring the short-circuit structure of the source.
-/

namespace FantaPay

/-- Transaction types (`Transaction.type` in `server.py`). -/
inductive TxType where
  | deposit
  | withdraw
  | payment
  | matchday_payment
  | prize
  | refund
deriving DecidableEq, Repr

/-- Wallet references (`from_wallet` / `to_wallet` strings in `server.py`). -/
inductive WalletRef where
  | personal
  | competition
  | external
deriving DecidableEq, Repr

/-- Error taxonomy.  The source raises `HTTPException`s; the mapping is
`400 "Amount must be positive"` ↦ `invalidAmount`,
`400 "Insufficient balance"` ↦ `insufficientBalance`,
`404` ↦ `notFound`, `403` ↦ `forbidden`, and the spec's
`InvalidMatchday` / `Conflict(msg)` for the matchday scheduler. -/
inductive Err where
  | invalidAmount
  | insufficientBalance
  | notFound
  | forbidden
  | invalidMatchday
  | conflict (msg : String)
deriving DecidableEq, Repr

/-- An immutable audit record (`Transaction` model in `server.py`),
keeping the fields the claims depend on. -/
structure Transaction where
  user_id : Nat
  competition_id : Option Nat
  type : TxType
  amount : Int
  from_wallet : WalletRef
  to_wallet : WalletRef
deriving DecidableEq, Repr

/-- The schemaless `standings: Dict[str, Any]` blob, abstracted to an
association list of opaque entries; the ledger core never inspects it. -/
abbrev Standings := List (String × String)

/-- A competition record (`Competition` model in `server.py`),
keeping the ledger-relevant fields. -/
structure Competition where
  id : Nat
  admin_id : Nat
  participants : List Nat
  wallet_balance : Int
  is_active : Bool
  standings : Standings
  current_matchday : Nat
  total_matchdays : Nat
  participation_cost_per_team : Int
  expected_teams : Nat
  total_prize_pool : Int
  daily_payment_enabled : Bool
  daily_payment_amount : Int
deriving DecidableEq, Repr

/-- One matchday payment obligation (`MatchdayPayment` model in
`server.py`); `paid = true` models `status == "paid"`. -/
structure MatchdayPayment where
  user_id : Nat
  competition_id : Nat
  matchday : Nat
  amount : Int
  paid : Bool
deriving DecidableEq, Repr

/-- The persisted state: the `users` (id ↦ wallet balance),
`competitions`, `transactions` and `matchday_payments` collections. -/
structure LedgerState where
  users : List (Nat × Int)
  comps : List Competition
  txs : List Transaction
  mdps : List MatchdayPayment
deriving DecidableEq, Repr

/-- Lookup `db.users.find_one({"_id": uid})`, projected to the wallet balance. -/
def getBal : List (Nat × Int) → Nat → Option Int
  | [], _ => none
  | (u, b) :: rest, uid => if u = uid then some b else getBal rest uid

/-- Update `db.users.update_one({"_id": uid}, {"$set": {"wallet_balance": nb}})`:
sets the balance of every entry with the given id. -/
def setBal : List (Nat × Int) → Nat → Int → List (Nat × Int)
  | [], _, _ => []
  | (u, b) :: rest, uid, nb =>
      (u, if u = uid then nb else b) :: setBal rest uid nb

/-- Lookup `db.competitions.find_one({"_id": cid})`. -/
def findComp : List Competition → Nat → Option Competition
  | [], _ => none
  | c :: rest, cid => if c.id = cid then some c else findComp rest cid

/-- Update `db.competitions.update_one({"_id": cid}, {"$set": ...})`: applies the
field update to every entry with the given id. -/
def mapComp : List Competition → Nat → (Competition → Competition) → List Competition
  | [], _, _ => []
  | c :: rest, cid, f =>
      (if c.id = cid then f c else c) :: mapComp rest cid f

/-- Endpoint `POST /wallet/topup` (`topup_wallet`, server.py lines 850–878). -/
def topupWallet (s : LedgerState) (uid : Nat) (amount : Int) :
    Except Err Int × LedgerState :=
  match getBal s.users uid with
  | none => (.error .notFound, s)
  | some bal =>
    if amount ≤ 0 then (.error .invalidAmount, s)
    else
      let new_balance := bal + amount
      (.ok new_balance,
       { s with
         users := setBal s.users uid new_balance,
         txs := s.txs ++
           [{ user_id := uid, competition_id := none, type := .deposit,
              amount := amount, from_wallet := .external, to_wallet := .personal }] })

/-- Endpoint `POST /wallet/withdraw` (`withdraw_from_wallet`, server.py lines 880–911). -/
def withdrawFromWallet (s : LedgerState) (uid : Nat) (amount : Int) :
    Except Err Int × LedgerState :=
  match getBal s.users uid with
  | none => (.error .notFound, s)
  | some bal =>
    if amount ≤ 0 then (.error .invalidAmount, s)
    else if bal < amount then (.error .insufficientBalance, s)
    else
      let new_balance := bal - amount
      (.ok new_balance,
       { s with
         users := setBal s.users uid new_balance,
         txs := s.txs ++
           [{ user_id := uid, competition_id := none, type := .withdraw,
              amount := amount, from_wallet := .personal, to_wallet := .external }] })

/-- Endpoint `POST /competitions/{id}/pay` (`pay_competition_fee`, server.py lines
913–972).  The checks appear in source order: amount, then the
principal's balance, then competition existence, then participation. -/
def payCompetitionFee (s : LedgerState) (uid cid : Nat) (amount : Int) :
    Except Err (Int × Int) × LedgerState :=
  match getBal s.users uid with
  | none => (.error .notFound, s)
  | some bal =>
    if amount ≤ 0 then (.error .invalidAmount, s)
    else if bal < amount then (.error .insufficientBalance, s)
    else
      match findComp s.comps cid with
      | none => (.error .notFound, s)
      | some comp =>
        if uid ∉ comp.participants then (.error .forbidden, s)
        else
          let new_user_balance := bal - amount
          let new_comp_balance := comp.wallet_balance + amount
          (.ok (new_user_balance, new_comp_balance),
           { s with
             users := setBal s.users uid new_user_balance,
             comps := mapComp s.comps cid
               (fun c => { c with wallet_balance := new_comp_balance }),
             txs := s.txs ++
               [{ user_id := uid, competition_id := some cid, type := .payment,
                  amount := amount, from_wallet := .personal,
                  to_wallet := .competition }] })

/-- The client-supplied part of `POST /competitions`
(`CompetitionCreate` model in `server.py`, pydantic defaults applied). -/
structure CompetitionCreate where
  total_matchdays : Nat := 36
  participation_cost_per_team : Int := 210
  expected_teams : Nat := 8
  total_prize_pool : Int := 1680
  daily_payment_enabled : Bool := false
  daily_payment_amount : Int := 0
deriving DecidableEq, Repr

/-- Endpoint `POST /competitions` (`create_competition`, server.py lines 699–739).
`cid` stands for the fresh `ObjectId` minted by the handler; the new
document is appended to the collection. -/
def createCompetition (s : LedgerState) (uid cid : Nat)
    (cfg : CompetitionCreate) : Competition × LedgerState :=
  let comp : Competition :=
    { id := cid
      admin_id := uid
      participants := [uid]
      wallet_balance := 0
      is_active := true
      standings := []
      current_matchday := 1
      total_matchdays := cfg.total_matchdays
      participation_cost_per_team := cfg.participation_cost_per_team
      expected_teams := cfg.expected_teams
      total_prize_pool := cfg.total_prize_pool
      daily_payment_enabled := cfg.daily_payment_enabled
      daily_payment_amount := cfg.daily_payment_amount }
  (comp, { s with comps := s.comps ++ [comp] })

/-- The `$set` document of `update_standings`: new standings, plus
`current_matchday` when the optional matchday is present and nonzero
(Python truthiness of `if standings_data.matchday:`). -/
def standingsUpdate (st : Standings) (md : Option Nat)
    (c : Competition) : Competition :=
  match md with
  | some m =>
      if m ≠ 0 then { c with standings := st, current_matchday := m }
      else { c with standings := st }
  | none => { c with standings := st }

/-- Endpoint `PATCH /competitions/{id}/standings` (`update_standings`, server.py
lines 809–842). -/
def updateStandings (s : LedgerState) (uid cid : Nat) (st : Standings)
    (md : Option Nat) : Except Err Unit × LedgerState :=
  match findComp s.comps cid with
  | none => (.error .notFound, s)
  | some comp =>
    if comp.admin_id ≠ uid then (.error .forbidden, s)
    else
      (.ok (), { s with comps := mapComp s.comps cid (standingsUpdate st md) })

/-- Endpoint `GET /competitions/{id}/transactions` (`get_competition_transactions`,
server.py lines 991–1025).  Read-only; the reverse-chronological sort,
the 100-document limit and the display-name annotation are presentation
details and are not modelled. -/
def getCompetitionTransactions (s : LedgerState) (uid cid : Nat) :
    Except Err (List Transaction) :=
  match findComp s.comps cid with
  | none => .error .notFound
  | some comp =>
    if uid ∉ comp.participants then .error .forbidden
    else .ok (s.txs.filter (fun t => t.competition_id = some cid))

/-- Whether matchday `m` already has `status == "paid"` for this
(user, competition) pair. -/
def isPaid (l : List MatchdayPayment) (uid cid m : Nat) : Bool :=
  l.any (fun p =>
    p.user_id = uid ∧ p.competition_id = cid ∧ p.matchday = m ∧ p.paid = true)

/-- Flip the (uid, cid, m) MatchdayPayment to `paid`; when no record
exists yet it is created already paid (the spec leaves eager-vs-lazy
record creation open; this covers both policies). -/
def markPaid (l : List MatchdayPayment) (uid cid m : Nat) (amt : Int) :
    List MatchdayPayment :=
  if l.any (fun p => p.user_id = uid ∧ p.competition_id = cid ∧ p.matchday = m) then
    l.map (fun p =>
      if p.user_id = uid ∧ p.competition_id = cid ∧ p.matchday = m then
        { p with paid := true }
      else p)
  else l ++ [{ user_id := uid, competition_id := cid, matchday := m,
               amount := amt, paid := true }]

/-- Modelled from the spec: the `POST /competitions/{id}/matchday-payments`
handler (`PayMatchdays`, spec §4.2) is referenced by the repository's test
scripts and by the `MatchdayPayment`/`MatchdayPaymentCreate` models but is
absent from `backend/server.py`.  This follows the spec's algorithm steps
1–6 — load/enabled check, whole-batch range validation (`InvalidMatchday`),
whole-batch duplicate detection before any mutation (`Conflict("already
paid")`), `totalCost` balance check, then the atomic debit/credit/flip with
one `matchday_payment` Transaction per matchday — together with the
Authorization Guard's participant rule (spec §4.4). -/
def payMatchdays (s : LedgerState) (uid cid : Nat) (mds : List Nat) :
    Except Err (List Nat × Int) × LedgerState :=
  match getBal s.users uid with
  | none => (.error .notFound, s)
  | some bal =>
    match findComp s.comps cid with
    | none => (.error .notFound, s)
    | some comp =>
      if comp.daily_payment_enabled = false then
        (.error (.conflict "daily payments not enabled"), s)
      else if uid ∉ comp.participants then (.error .forbidden, s)
      else if mds.any (fun m => m < 1 ∨ comp.total_matchdays < m) then
        (.error .invalidMatchday, s)
      else if mds.any (fun m => isPaid s.mdps uid cid m) then
        (.error (.conflict "already paid"), s)
      else
        let totalCost : Int := (mds.length : Int) * comp.daily_payment_amount
        if bal < totalCost then (.error .insufficientBalance, s)
        else
          (.ok (mds, totalCost),
           { s with
             users := setBal s.users uid (bal - totalCost),
             comps := mapComp s.comps cid (fun c =>
               { c with wallet_balance := comp.wallet_balance + totalCost }),
             mdps := mds.foldl
               (fun l m => markPaid l uid cid m comp.daily_payment_amount) s.mdps,
             txs := s.txs ++ mds.map (fun _ =>
               { user_id := uid, competition_id := some cid,
                 type := .matchday_payment, amount := comp.daily_payment_amount,
                 from_wallet := .personal, to_wallet := .competition }) })

/-! ## Store lemmas -/

theorem getBal_mem {l : List (Nat × Int)} {uid : Nat} {b : Int}
    (h : getBal l uid = some b) : (uid, b) ∈ l := by
  induction l with
  | nil => simp [getBal] at h
  | cons q rest ih =>
    obtain ⟨u, bb⟩ := q
    by_cases hu : u = uid
    · simp [getBal, hu] at h
      simp [hu, h]
    · simp [getBal, hu] at h
      exact List.mem_cons_of_mem _ (ih h)

theorem getBal_setBal_self {l : List (Nat × Int)} {uid : Nat} {b nb : Int}
    (h : getBal l uid = some b) : getBal (setBal l uid nb) uid = some nb := by
  induction l with
  | nil => simp [getBal] at h
  | cons q rest ih =>
    obtain ⟨u, bb⟩ := q
    by_cases hu : u = uid
    · simp [getBal, setBal, hu]
    · simp [getBal, setBal, hu] at h ⊢
      exact ih h

theorem mem_setBal {l : List (Nat × Int)} {uid : Nat} {nb : Int} {p : Nat × Int}
    (h : p ∈ setBal l uid nb) : p.2 = nb ∨ p ∈ l := by
  induction l with
  | nil => simp [setBal] at h
  | cons q rest ih =>
    obtain ⟨u, bb⟩ := q
    simp only [setBal, List.mem_cons] at h
    rcases h with h | h
    · by_cases hu : u = uid
      · simp [hu] at h
        left
        rw [h]
      · simp [hu] at h
        right
        simp [h]
    · rcases ih h with h2 | h2
      · exact Or.inl h2
      · exact Or.inr (List.mem_cons_of_mem _ h2)

theorem findComp_mem {l : List Competition} {cid : Nat} {c : Competition}
    (h : findComp l cid = some c) : c ∈ l := by
  induction l with
  | nil => simp [findComp] at h
  | cons c0 rest ih =>
    by_cases hc : c0.id = cid
    · simp [findComp, hc] at h
      simp [h]
    · simp [findComp, hc] at h
      exact List.mem_cons_of_mem _ (ih h)

theorem findComp_id {l : List Competition} {cid : Nat} {c : Competition}
    (h : findComp l cid = some c) : c.id = cid := by
  induction l with
  | nil => simp [findComp] at h
  | cons c0 rest ih =>
    by_cases hc : c0.id = cid
    · simp [findComp, hc] at h
      rw [← h]
      exact hc
    · simp [findComp, hc] at h
      exact ih h

/-- Reading a competition after a `$set` update targeted at `cid2`: the
first match for `cid` is updated exactly when it matches `cid2`,
provided the update does not change document ids. -/
theorem findComp_mapComp {l : List Competition} {cid cid2 : Nat}
    {f : Competition → Competition} (hf : ∀ c, (f c).id = c.id) :
    findComp (mapComp l cid2 f) cid =
      (findComp l cid).map (fun c => if c.id = cid2 then f c else c) := by
  induction l with
  | nil => simp [findComp, mapComp]
  | cons c0 rest ih =>
    by_cases h1 : c0.id = cid
    · have hh : (if c0.id = cid2 then f c0 else c0).id = cid := by
        by_cases h2 : c0.id = cid2
        · rw [if_pos h2, hf c0]
          exact h1
        · rw [if_neg h2]
          exact h1
      simp only [mapComp, findComp, if_pos hh, if_pos h1, Option.map_some']
    · have hh : ¬ (if c0.id = cid2 then f c0 else c0).id = cid := by
        by_cases h2 : c0.id = cid2
        · rw [if_pos h2, hf c0]
          exact h1
        · rw [if_neg h2]
          exact h1
      simp only [mapComp, findComp, if_neg hh, if_neg h1]
      exact ih

theorem findComp_mapComp_self {l : List Competition} {cid : Nat}
    {c : Competition} {f : Competition → Competition}
    (hf : ∀ c, (f c).id = c.id) (h : findComp l cid = some c) :
    findComp (mapComp l cid f) cid = some (f c) := by
  rw [findComp_mapComp hf, h]
  simp [findComp_id h]

theorem mem_mapComp {l : List Competition} {cid : Nat}
    {f : Competition → Competition} {c' : Competition}
    (h : c' ∈ mapComp l cid f) : c' ∈ l ∨ ∃ c ∈ l, c' = f c := by
  induction l with
  | nil => simp [mapComp] at h
  | cons c0 rest ih =>
    simp only [mapComp, List.mem_cons] at h
    rcases h with h | h
    · by_cases hc : c0.id = cid
      · simp [hc] at h
        exact Or.inr ⟨c0, List.mem_cons_self c0 rest, h⟩
      · simp [hc] at h
        exact Or.inl (by simp [h])
    · rcases ih h with h2 | h2
      · exact Or.inl (List.mem_cons_of_mem _ h2)
      · obtain ⟨c, hcm, hce⟩ := h2
        exact Or.inr ⟨c, List.mem_cons_of_mem _ hcm, hce⟩

theorem findComp_append_left {l l2 : List Competition} {cid : Nat}
    {c : Competition} (h : findComp l cid = some c) :
    findComp (l ++ l2) cid = some c := by
  induction l with
  | nil => simp [findComp] at h
  | cons c0 rest ih =>
    by_cases hc : c0.id = cid
    · simp [findComp, hc] at h ⊢
      exact h
    · simp [findComp, hc] at h ⊢
      exact ih h

/-! ## Claim theorems -/

/-- C6: `TopUp(principal, amount)` rejects every `amount ≤ 0` with
`InvalidAmount` and leaves the state unchanged; for every `amount > 0`
(no upper bound) it succeeds, sets the principal's balance to the old
balance plus the amount, returns that new balance, and appends exactly
one `deposit` Transaction from `external` to `personal`. -/
theorem topup_spec (s : LedgerState) (uid : Nat) (a bal : Int)
    (hu : getBal s.users uid = some bal) :
    (a ≤ 0 → topupWallet s uid a = (.error .invalidAmount, s)) ∧
    (0 < a →
      topupWallet s uid a =
        (.ok (bal + a),
         { s with users := setBal s.users uid (bal + a),
                  txs := s.txs ++
                    [{ user_id := uid, competition_id := none, type := .deposit,
                       amount := a, from_wallet := .external,
                       to_wallet := .personal }] }) ∧
      getBal (topupWallet s uid a).2.users uid = some (bal + a)) := by
  constructor
  · intro h
    simp [topupWallet, hu, h]
  · intro h
    have hna : ¬ a ≤ 0 := not_le.mpr h
    refine ⟨by simp [topupWallet, hu, hna], ?_⟩
    simp only [topupWallet, hu, if_neg hna]
    exact getBal_setBal_self hu

/-- Witness for `topup_spec`: topping up 25.00 € onto an empty wallet. -/
theorem topup_spec_witness :
    (topupWallet ⟨[(1, 0)], [], [], []⟩ 1 2500).1 = .ok 2500 ∧
    getBal (topupWallet ⟨[(1, 0)], [], [], []⟩ 1 2500).2.users 1 = some 2500 := by
  have h := (topup_spec ⟨[(1, 0)], [], [], []⟩ 1 2500 0 rfl).2 (by decide)
  exact ⟨by rw [h.1]; simp, by simpa using h.2⟩

/-- C5: `Withdraw(principal, amount)` fails with `InvalidAmount` iff
`amount ≤ 0`, fails with `InsufficientBalance` iff `amount` exceeds the
balance, and otherwise succeeds: the balance decreases by exactly
`amount` and one `withdraw` Transaction from `personal` to `external`
is appended. -/
theorem withdraw_spec (s : LedgerState) (uid : Nat) (a bal : Int)
    (hu : getBal s.users uid = some bal) (hb : 0 ≤ bal) :
    ((withdrawFromWallet s uid a).1 = .error .invalidAmount ↔ a ≤ 0) ∧
    ((withdrawFromWallet s uid a).1 = .error .insufficientBalance ↔ bal < a) ∧
    (0 < a → a ≤ bal →
      withdrawFromWallet s uid a =
        (.ok (bal - a),
         { s with users := setBal s.users uid (bal - a),
                  txs := s.txs ++
                    [{ user_id := uid, competition_id := none, type := .withdraw,
                       amount := a, from_wallet := .personal,
                       to_wallet := .external }] })) := by
  by_cases ha : a ≤ 0
  · have hnl : ¬ bal < a := not_lt.mpr (le_trans ha hb)
    refine ⟨by simp [withdrawFromWallet, hu, ha], ?_, ?_⟩
    · simp [withdrawFromWallet, hu, ha, hnl]
    · intro h0
      exact absurd ha (not_le.mpr h0)
  · by_cases hlt : bal < a
    · refine ⟨by simp [withdrawFromWallet, hu, ha, hlt], ?_, ?_⟩
      · simp [withdrawFromWallet, hu, ha, hlt]
      · intro _ hle
        exact absurd hlt (not_lt.mpr hle)
    · refine ⟨by simp [withdrawFromWallet, hu, ha, hlt], ?_, ?_⟩
      · simp [withdrawFromWallet, hu, ha, hlt]
    -- success branch
      · intro _ _
        simp [withdrawFromWallet, hu, ha, hlt]

/-- Witness for `withdraw_spec`: the spec's boundary scenario in cents —
balance 50.00 €, `Withdraw(50.00)` succeeds leaving 0, then
`Withdraw(0.01)` fails with `InsufficientBalance`. -/
theorem withdraw_spec_witness :
    (withdrawFromWallet ⟨[(7, 5000)], [], [], []⟩ 7 5000).1 = .ok 0 ∧
    (withdrawFromWallet
      (withdrawFromWallet ⟨[(7, 5000)], [], [], []⟩ 7 5000).2 7 1).1 =
      .error .insufficientBalance := by
  have h1 := withdraw_spec ⟨[(7, 5000)], [], [], []⟩ 7 5000 5000 rfl (by decide)
  have hs := h1.2.2 (by decide) (by decide)
  constructor
  · rw [hs]
    simp
  · have h2 := withdraw_spec
      (withdrawFromWallet ⟨[(7, 5000)], [], [], []⟩ 7 5000).2 7 1 0
      (by decide) (by decide)
    exact h2.2.1.mpr (by decide)

/-- C4: for each mutating wallet operation (`TopUp`, `Withdraw`,
`PayCompetitionFee`), an error outcome leaves the entire ledger state —
user balances, competition balances and the transaction log — exactly
as it was before the call. -/
theorem mutating_op_error_is_noop (s : LedgerState) (uid cid : Nat)
    (a : Int) (e : Err) :
    ((topupWallet s uid a).1 = .error e → (topupWallet s uid a).2 = s) ∧
    ((withdrawFromWallet s uid a).1 = .error e →
      (withdrawFromWallet s uid a).2 = s) ∧
    ((payCompetitionFee s uid cid a).1 = .error e →
      (payCompetitionFee s uid cid a).2 = s) := by
  refine ⟨?_, ?_, ?_⟩
  · cases hg : getBal s.users uid with
    | none => intro _; simp [topupWallet, hg]
    | some bal =>
      by_cases ha : a ≤ 0
      · intro _
        simp [topupWallet, hg, ha]
      · intro h
        simp [topupWallet, hg, ha] at h
  · cases hg : getBal s.users uid with
    | none => intro _; simp [withdrawFromWallet, hg]
    | some bal =>
      by_cases ha : a ≤ 0
      · intro _
        simp [withdrawFromWallet, hg, ha]
      · by_cases hlt : bal < a
        · intro _
          simp [withdrawFromWallet, hg, ha, hlt]
        · intro h
          simp [withdrawFromWallet, hg, ha, hlt] at h
  · cases hg : getBal s.users uid with
    | none => intro _; simp [payCompetitionFee, hg]
    | some bal =>
      by_cases ha : a ≤ 0
      · intro _
        simp [payCompetitionFee, hg, ha]
      · by_cases hlt : bal < a
        · intro _
          simp [payCompetitionFee, hg, ha, hlt]
        · cases hc : findComp s.comps cid with
          | none => intro _; simp [payCompetitionFee, hg, ha, hlt, hc]
          | some comp =>
            by_cases hp : uid ∈ comp.participants
            · intro h
              simp [payCompetitionFee, hg, ha, hlt, hc, hp] at h
            · intro _
              simp [payCompetitionFee, hg, ha, hlt, hc, hp]

/-- Witness for `mutating_op_error_is_noop`: a rejected zero-amount
top-up leaves the state untouched. -/
theorem mutating_op_error_is_noop_witness :
    (topupWallet ⟨[(1, 100)], [], [], []⟩ 1 0).2 = ⟨[(1, 100)], [], [], []⟩ :=
  (mutating_op_error_is_noop ⟨[(1, 100)], [], [], []⟩ 1 0 0 .invalidAmount).1 rfl

/-- C1: a successful `PayCompetitionFee` of amount `a` decreases the
principal's wallet by exactly `a`, increases the competition wallet by
exactly `a`, conserves the sum of the two balances
(`userBefore - userAfter = compAfter - compBefore`), and appends exactly
one `payment` Transaction carrying both the user id and the competition
id. -/
theorem pay_fee_transfer (s : LedgerState) (uid cid : Nat) (a bal : Int)
    (comp : Competition) {r : Int × Int} {s' : LedgerState}
    (hu : getBal s.users uid = some bal)
    (hc : findComp s.comps cid = some comp)
    (h : payCompetitionFee s uid cid a = (.ok r, s')) :
    getBal s'.users uid = some (bal - a) ∧
    findComp s'.comps cid =
      some { comp with wallet_balance := comp.wallet_balance + a } ∧
    bal - (bal - a) = (comp.wallet_balance + a) - comp.wallet_balance ∧
    s'.txs = s.txs ++
      [{ user_id := uid, competition_id := some cid, type := .payment,
         amount := a, from_wallet := .personal, to_wallet := .competition }] := by
  by_cases ha : a ≤ 0
  · simp [payCompetitionFee, hu, ha] at h
  · by_cases hlt : bal < a
    · simp [payCompetitionFee, hu, ha, hlt] at h
    · by_cases hp : uid ∈ comp.participants
      · simp only [payCompetitionFee, hu, hc, if_neg ha, if_neg hlt,
          if_neg (not_not_intro hp)] at h
        rw [Prod.mk.injEq] at h
        obtain ⟨h1, h2⟩ := h
        subst h2
        refine ⟨getBal_setBal_self hu, ?_, by ring, rfl⟩
        exact findComp_mapComp_self (fun c => rfl) hc
      · simp [payCompetitionFee, hu, ha, hlt, hc, hp] at h

/-- A small concrete competition and ledger used by several witnesses:
one participant (user 1, balance 100.00 €) and competition 5 with an
empty pooled wallet. -/
def payDemoComp : Competition :=
  ⟨5, 1, [1], 0, true, [], 1, 36, 21000, 8, 168000, false, 0⟩

def payDemoState : LedgerState := ⟨[(1, 10000)], [payDemoComp], [], []⟩

/-- Witness for `pay_fee_transfer`: user 1 pays 30.00 € into
competition 5 from a 100.00 € wallet. -/
theorem pay_fee_transfer_witness :
    getBal (payCompetitionFee payDemoState 1 5 3000).2.users 1 =
      some (10000 - 3000) :=
  (pay_fee_transfer payDemoState 1 5 3000 10000 payDemoComp rfl rfl rfl).1

/-- Wallet non-negativity across the whole ledger: every user balance
and every competition pooled balance is `≥ 0`. -/
def NonNegState (s : LedgerState) : Prop :=
  (∀ p ∈ s.users, 0 ≤ p.2) ∧ (∀ c ∈ s.comps, 0 ≤ c.wallet_balance)

instance (s : LedgerState) : Decidable (NonNegState s) := by
  unfold NonNegState
  infer_instance

/-- C2: if every wallet balance (user and competition) is non-negative
before a core wallet operation (`TopUp`, `Withdraw`,
`PayCompetitionFee`), then every wallet balance is non-negative after
it, whether the operation succeeds or fails. -/
theorem ops_preserve_nonneg (s : LedgerState) (uid cid : Nat) (a : Int)
    (h : NonNegState s) :
    NonNegState (topupWallet s uid a).2 ∧
    NonNegState (withdrawFromWallet s uid a).2 ∧
    NonNegState (payCompetitionFee s uid cid a).2 := by
  obtain ⟨hus, hcs⟩ := h
  refine ⟨?_, ?_, ?_⟩
  · cases hg : getBal s.users uid with
    | none =>
      simp only [topupWallet, hg]
      exact ⟨hus, hcs⟩
    | some bal =>
      by_cases ha : a ≤ 0
      · simp only [topupWallet, hg, if_pos ha]
        exact ⟨hus, hcs⟩
      · have hbal : 0 ≤ bal := hus _ (getBal_mem hg)
        have ha2 : 0 < a := not_le.mp ha
        simp only [topupWallet, hg, if_neg ha]
        refine ⟨?_, hcs⟩
        intro p hp
        rcases mem_setBal hp with h2 | h2
        · omega
        · exact hus _ h2
  · cases hg : getBal s.users uid with
    | none =>
      simp only [withdrawFromWallet, hg]
      exact ⟨hus, hcs⟩
    | some bal =>
      by_cases ha : a ≤ 0
      · simp only [withdrawFromWallet, hg, if_pos ha]
        exact ⟨hus, hcs⟩
      · by_cases hlt : bal < a
        · simp only [withdrawFromWallet, hg, if_neg ha, if_pos hlt]
          exact ⟨hus, hcs⟩
        · have hle : a ≤ bal := not_lt.mp hlt
          simp only [withdrawFromWallet, hg, if_neg ha, if_neg hlt]
          refine ⟨?_, hcs⟩
          intro p hp
          rcases mem_setBal hp with h2 | h2
          · omega
          · exact hus _ h2
  · cases hg : getBal s.users uid with
    | none =>
      simp only [payCompetitionFee, hg]
      exact ⟨hus, hcs⟩
    | some bal =>
      by_cases ha : a ≤ 0
      · simp only [payCompetitionFee, hg, if_pos ha]
        exact ⟨hus, hcs⟩
      · by_cases hlt : bal < a
        · simp only [payCompetitionFee, hg, if_neg ha, if_pos hlt]
          exact ⟨hus, hcs⟩
        · cases hc : findComp s.comps cid with
          | none =>
            simp only [payCompetitionFee, hg, if_neg ha, if_neg hlt, hc]
            exact ⟨hus, hcs⟩
          | some comp =>
            by_cases hp : uid ∈ comp.participants
            · have hle : a ≤ bal := not_lt.mp hlt
              have ha2 : 0 < a := not_le.mp ha
              have hcb : 0 ≤ comp.wallet_balance := hcs _ (findComp_mem hc)
              simp only [payCompetitionFee, hg, if_neg ha, if_neg hlt, hc,
                if_neg (not_not_intro hp)]
              constructor
              · intro p hpm
                rcases mem_setBal hpm with h2 | h2
                · omega
                · exact hus _ h2
              · intro c' hcm
                rcases mem_mapComp hcm with h2 | h2
                · exact hcs _ h2
                · obtain ⟨c0, _, hce⟩ := h2
                  rw [hce]
                  show 0 ≤ comp.wallet_balance + a
                  omega
            · simp only [payCompetitionFee, hg, if_neg ha, if_neg hlt, hc,
                if_pos hp]
              exact ⟨hus, hcs⟩

/-- Witness for `ops_preserve_nonneg` at a concrete non-negative state. -/
theorem ops_preserve_nonneg_witness :
    NonNegState (withdrawFromWallet payDemoState 1 4000).2 :=
  (ops_preserve_nonneg payDemoState 1 5 4000 (by decide)).2.1

/-- A store with user 1 at balance 0 and no competitions. -/
def c7State : LedgerState := ⟨[(1, 0)], [], [], []⟩

/-- C7 counterexample: competition 9 does not exist, yet paying a
positive amount above the balance reports `InsufficientBalance` rather
than the `NotFound` the claim assigns to every call on a missing
competition — the source checks the amount and the balance before it
looks the competition up. -/
theorem pay_fee_error_order_counterexample :
    findComp c7State.comps 9 = none ∧
    (payCompetitionFee c7State 1 9 500).1 = .error .insufficientBalance ∧
    ¬ (payCompetitionFee c7State 1 9 500).1 = .error .notFound := by
  refine ⟨rfl, rfl, fun h => ?_⟩
  rw [show (payCompetitionFee c7State 1 9 500).1 =
        .error .insufficientBalance from rfl] at h
  simp only [Except.error.injEq] at h
  exact (by decide : ¬ Err.insufficientBalance = Err.notFound) h

/-- C7 (amended): `pay_competition_fee` settles the error in source
order — `InvalidAmount` whenever `amount ≤ 0`; otherwise
`InsufficientBalance` whenever the balance is below the amount;
otherwise `NotFound` when the competition does not exist; otherwise
`Forbidden` when the principal is not a participant. -/
theorem pay_fee_error_order (s : LedgerState) (uid cid : Nat) (a bal : Int)
    (hu : getBal s.users uid = some bal) :
    (a ≤ 0 → (payCompetitionFee s uid cid a).1 = .error .invalidAmount) ∧
    (0 < a → bal < a →
      (payCompetitionFee s uid cid a).1 = .error .insufficientBalance) ∧
    (0 < a → a ≤ bal → findComp s.comps cid = none →
      (payCompetitionFee s uid cid a).1 = .error .notFound) ∧
    (∀ comp, 0 < a → a ≤ bal → findComp s.comps cid = some comp →
      uid ∉ comp.participants →
      (payCompetitionFee s uid cid a).1 = .error .forbidden) := by
  refine ⟨?_, ?_, ?_, ?_⟩
  · intro ha
    simp [payCompetitionFee, hu, ha]
  · intro ha hlt
    simp [payCompetitionFee, hu, not_le.mpr ha, hlt]
  · intro ha hle hc
    simp [payCompetitionFee, hu, not_le.mpr ha, not_lt.mpr hle, hc]
  · intro comp ha hle hc hp
    simp [payCompetitionFee, hu, not_le.mpr ha, not_lt.mpr hle, hc, hp]

/-- Witness for `pay_fee_error_order`: a broke caller gets
`InsufficientBalance`; a funded caller on a missing competition gets
`NotFound`. -/
theorem pay_fee_error_order_witness :
    (payCompetitionFee c7State 1 9 500).1 = .error .insufficientBalance ∧
    (payCompetitionFee ⟨[(1, 10000)], [], [], []⟩ 1 9 500).1 =
      .error .notFound := by
  refine ⟨(pay_fee_error_order c7State 1 9 500 0 rfl).2.1
    (by decide) (by decide), ?_⟩
  exact (pay_fee_error_order ⟨[(1, 10000)], [], [], []⟩ 1 9 500 10000
    rfl).2.2.1 (by decide) (by decide) rfl

/-- C8: standings mutation is admin-gated — a principal who is not the
competition's admin gets `Forbidden` and the state (hence the
competition record: standings, current matchday, balances) is
unchanged; every successful standings update was made by the admin. -/
theorem standings_admin_only (s : LedgerState) (uid cid : Nat)
    (st : Standings) (md : Option Nat) (comp : Competition)
    (hc : findComp s.comps cid = some comp) :
    (comp.admin_id ≠ uid →
      updateStandings s uid cid st md = (.error .forbidden, s)) ∧
    (∀ r s', updateStandings s uid cid st md = (.ok r, s') →
      comp.admin_id = uid) := by
  constructor
  · intro hne
    simp [updateStandings, hc, hne]
  · intro r s' h
    by_cases hne : comp.admin_id = uid
    · exact hne
    · simp [updateStandings, hc, hne] at h

/-- Witness for `standings_admin_only`: user 2 (a non-admin) cannot
update competition 5, whose admin is user 1. -/
theorem standings_admin_only_witness :
    updateStandings payDemoState 2 5 [] none = (.error .forbidden, payDemoState) :=
  (standings_admin_only payDemoState 2 5 [] none payDemoComp rfl).1 (by decide)

/-- C10: reading a competition's transaction history is
participant-gated — `NotFound` when the competition is absent,
`Forbidden` with no transaction data when the caller is not a
participant, and the full competition-scoped transaction list for every
participant, admin or not. -/
theorem comp_transactions_participant_gated (s : LedgerState) (uid cid : Nat) :
    (findComp s.comps cid = none →
      getCompetitionTransactions s uid cid = .error .notFound) ∧
    (∀ comp, findComp s.comps cid = some comp → uid ∉ comp.participants →
      getCompetitionTransactions s uid cid = .error .forbidden) ∧
    (∀ comp, findComp s.comps cid = some comp → uid ∈ comp.participants →
      getCompetitionTransactions s uid cid =
        .ok (s.txs.filter (fun t => t.competition_id = some cid))) := by
  refine ⟨?_, ?_, ?_⟩
  · intro hc
    simp [getCompetitionTransactions, hc]
  · intro comp hc hp
    simp [getCompetitionTransactions, hc, hp]
  · intro comp hc hp
    simp [getCompetitionTransactions, hc, hp]

/-- Witness for `comp_transactions_participant_gated`: participant 1
reads the (empty) history of competition 5; outsider 2 is refused. -/
theorem comp_transactions_participant_gated_witness :
    getCompetitionTransactions payDemoState 1 5 = .ok [] ∧
    getCompetitionTransactions payDemoState 2 5 = .error .forbidden := by
  constructor
  · have h := (comp_transactions_participant_gated payDemoState 1 5).2.2
      payDemoComp rfl (by decide)
    rw [h]
    rfl
  · exact (comp_transactions_participant_gated payDemoState 2 5).2.1
      payDemoComp rfl (by decide)

theorem standingsUpdate_id (st : Standings) (md : Option Nat)
    (c : Competition) : (standingsUpdate st md c).id = c.id := by
  cases md with
  | none => rfl
  | some m =>
    by_cases hm : m ≠ 0
    · simp [standingsUpdate, hm]
    · simp [standingsUpdate, hm]

theorem standingsUpdate_balance (st : Standings) (md : Option Nat)
    (c : Competition) :
    (standingsUpdate st md c).wallet_balance = c.wallet_balance := by
  cases md with
  | none => rfl
  | some m =>
    by_cases hm : m ≠ 0
    · simp [standingsUpdate, hm]
    · simp [standingsUpdate, hm]

theorem topupWallet_comps (s : LedgerState) (uid : Nat) (a : Int) :
    (topupWallet s uid a).2.comps = s.comps := by
  cases hg : getBal s.users uid with
  | none => simp [topupWallet, hg]
  | some bal =>
    by_cases ha : a ≤ 0
    · simp [topupWallet, hg, ha]
    · simp [topupWallet, hg, ha]

theorem withdrawFromWallet_comps (s : LedgerState) (uid : Nat) (a : Int) :
    (withdrawFromWallet s uid a).2.comps = s.comps := by
  cases hg : getBal s.users uid with
  | none => simp [withdrawFromWallet, hg]
  | some bal =>
    by_cases ha : a ≤ 0
    · simp [withdrawFromWallet, hg, ha]
    · by_cases hlt : bal < a
      · simp [withdrawFromWallet, hg, ha, hlt]
      · simp [withdrawFromWallet, hg, ha, hlt]

/-- After a `$set` targeted at `cid2`, the first match for `cid` is
either untouched or rewritten by the update function. -/
theorem findComp_mapComp_cases {l : List Competition} {cid cid2 : Nat}
    {f : Competition → Competition} {comp : Competition}
    (hf : ∀ c, (f c).id = c.id) (hc : findComp l cid = some comp) :
    findComp (mapComp l cid2 f) cid = some comp ∨
    (comp.id = cid2 ∧ findComp (mapComp l cid2 f) cid = some (f comp)) := by
  rw [findComp_mapComp hf, hc, Option.map_some']
  by_cases hcc : comp.id = cid2
  · right
    simp [hcc]
  · left
    simp [hcc]

/-- The handler `pay_competition_fee` never decreases any existing competition's
pooled balance, whatever its outcome. -/
theorem findComp_payFee_monotone (s : LedgerState) (uid cid2 : Nat) (a : Int)
    {cid : Nat} {comp : Competition} (hc : findComp s.comps cid = some comp) :
    ∃ c', findComp (payCompetitionFee s uid cid2 a).2.comps cid = some c' ∧
      comp.wallet_balance ≤ c'.wallet_balance := by
  cases hg : getBal s.users uid with
  | none => exact ⟨comp, by simp [payCompetitionFee, hg, hc], le_refl _⟩
  | some bal =>
    by_cases ha : a ≤ 0
    · exact ⟨comp, by simp [payCompetitionFee, hg, ha, hc], le_refl _⟩
    · by_cases hlt : bal < a
      · exact ⟨comp, by simp [payCompetitionFee, hg, ha, hlt, hc], le_refl _⟩
      · cases hc2 : findComp s.comps cid2 with
        | none =>
          exact ⟨comp, by simp [payCompetitionFee, hg, ha, hlt, hc2, hc],
            le_refl _⟩
        | some comp2 =>
          by_cases hp : uid ∈ comp2.participants
          · have ha2 : 0 < a := not_le.mp ha
            simp only [payCompetitionFee, hg, if_neg ha, if_neg hlt, hc2,
              if_neg (not_not_intro hp)]
            rcases findComp_mapComp_cases
              (f := fun c => { c with wallet_balance := comp2.wallet_balance + a })
              (fun c => rfl) hc with h | ⟨hcc, h⟩
            · exact ⟨comp, h, le_refl _⟩
            · have hid : comp.id = cid := findComp_id hc
              have heq : cid = cid2 := by rw [← hid, hcc]
              subst heq
              rw [hc] at hc2
              injection hc2 with h22
              subst h22
              refine ⟨_, h, ?_⟩
              show comp.wallet_balance ≤ comp.wallet_balance + a
              omega
          · exact ⟨comp,
              by simp [payCompetitionFee, hg, ha, hlt, hc2, hp, hc], le_refl _⟩

/-- A standings update never changes any competition's pooled balance,
whatever its outcome. -/
theorem findComp_updateStandings_balance (s : LedgerState) (uid cid2 : Nat)
    (st : Standings) (md : Option Nat) {cid : Nat} {comp : Competition}
    (hc : findComp s.comps cid = some comp) :
    ∃ c', findComp (updateStandings s uid cid2 st md).2.comps cid = some c' ∧
      c'.wallet_balance = comp.wallet_balance := by
  cases hc2 : findComp s.comps cid2 with
  | none => exact ⟨comp, by simp [updateStandings, hc2, hc], rfl⟩
  | some comp2 =>
    by_cases hne : comp2.admin_id ≠ uid
    · exact ⟨comp, by simp [updateStandings, hc2, hne, hc], rfl⟩
    · simp only [updateStandings, hc2, if_neg hne]
      rcases findComp_mapComp_cases (f := standingsUpdate st md)
        (standingsUpdate_id st md) hc with h | ⟨_, h⟩
      · exact ⟨comp, h, rfl⟩
      · exact ⟨_, h, standingsUpdate_balance st md comp⟩

/-- The spec-modelled `payMatchdays` never decreases any existing
competition's pooled balance, provided the target competition's
per-matchday amount is non-negative (the spec's data model requires
`dailyPaymentAmount` non-negative). -/
theorem findComp_payMatchdays_monotone (s : LedgerState) (uid cid2 : Nat)
    (mds : List Nat) {cid : Nat} {comp : Competition}
    (hc : findComp s.comps cid = some comp)
    (hd : ∀ c2, findComp s.comps cid2 = some c2 → 0 ≤ c2.daily_payment_amount) :
    ∃ c', findComp (payMatchdays s uid cid2 mds).2.comps cid = some c' ∧
      comp.wallet_balance ≤ c'.wallet_balance := by
  cases hg : getBal s.users uid with
  | none => exact ⟨comp, by simp [payMatchdays, hg, hc], le_refl _⟩
  | some bal =>
    cases hc2 : findComp s.comps cid2 with
    | none => exact ⟨comp, by simp [payMatchdays, hg, hc2, hc], le_refl _⟩
    | some comp2 =>
      by_cases hen : comp2.daily_payment_enabled = false
      · exact ⟨comp, by simp [payMatchdays, hg, hc2, hen, hc], le_refl _⟩
      · by_cases hp : uid ∈ comp2.participants
        · by_cases hr : mds.any (fun m => m < 1 ∨ comp2.total_matchdays < m) = true
          · refine ⟨comp, ?_, le_refl _⟩
            simp only [payMatchdays, hg, hc2, if_neg hen,
              if_neg (not_not_intro hp), if_pos hr]
            exact hc
          · by_cases hdup : mds.any (fun m => isPaid s.mdps uid cid2 m) = true
            · refine ⟨comp, ?_, le_refl _⟩
              simp only [payMatchdays, hg, hc2, if_neg hen,
                if_neg (not_not_intro hp), if_neg hr, if_pos hdup]
              exact hc
            · by_cases hins : bal < (mds.length : Int) * comp2.daily_payment_amount
              · refine ⟨comp, ?_, le_refl _⟩
                simp only [payMatchdays, hg, hc2, if_neg hen,
                  if_neg (not_not_intro hp), if_neg hr, if_neg hdup, if_pos hins]
                exact hc
              · have hcost : 0 ≤ (mds.length : Int) * comp2.daily_payment_amount :=
                  mul_nonneg (Int.natCast_nonneg _) (hd comp2 hc2)
                simp only [payMatchdays, hg, hc2, if_neg hen,
                  if_neg (not_not_intro hp), if_neg hr, if_neg hdup, if_neg hins]
                rcases findComp_mapComp_cases
                  (f := fun c => { c with wallet_balance :=
                    comp2.wallet_balance + (mds.length : Int) * comp2.daily_payment_amount })
                  (fun c => rfl) hc with h | ⟨hcc, h⟩
                · exact ⟨comp, h, le_refl _⟩
                · have hid : comp.id = cid := findComp_id hc
                  have heq : cid = cid2 := by rw [← hid, hcc]
                  subst heq
                  rw [hc] at hc2
                  injection hc2 with h22
                  subst h22
                  refine ⟨_, h, ?_⟩
                  show comp.wallet_balance ≤
                    comp.wallet_balance + (mds.length : Int) * comp.daily_payment_amount
                  have : 0 ≤ (mds.length : Int) * comp.daily_payment_amount := hcost
                  omega
        · exact ⟨comp,
            by simp [payMatchdays, hg, hc2, hen, hp, hc], le_refl _⟩

/-- C9: a competition's pooled wallet is 0 at creation and never
decreases afterwards: top-up, withdraw, competition creation and
standings updates leave every existing competition's `walletBalance`
exactly unchanged, `PayCompetitionFee` and the spec-modelled matchday
batch credit never decrease it, and a successful `PayCompetitionFee`
strictly increases the target competition's wallet by its (necessarily
positive) amount. -/
theorem comp_wallet_monotone (s : LedgerState) (uid cid cid2 fresh : Nat)
    (a : Int) (cfg : CompetitionCreate) (st : Standings) (md : Option Nat)
    (mds : List Nat) (comp : Competition)
    (hc : findComp s.comps cid = some comp) :
    (createCompetition s uid fresh cfg).1.wallet_balance = 0 ∧
    findComp (topupWallet s uid a).2.comps cid = some comp ∧
    findComp (withdrawFromWallet s uid a).2.comps cid = some comp ∧
    findComp (createCompetition s uid fresh cfg).2.comps cid = some comp ∧
    (∃ c', findComp (updateStandings s uid cid2 st md).2.comps cid = some c' ∧
      c'.wallet_balance = comp.wallet_balance) ∧
    (∃ c', findComp (payCompetitionFee s uid cid2 a).2.comps cid = some c' ∧
      comp.wallet_balance ≤ c'.wallet_balance) ∧
    ((∀ c2, findComp s.comps cid2 = some c2 → 0 ≤ c2.daily_payment_amount) →
      ∃ c', findComp (payMatchdays s uid cid2 mds).2.comps cid = some c' ∧
        comp.wallet_balance ≤ c'.wallet_balance) ∧
    (∀ r s', payCompetitionFee s uid cid a = (.ok r, s') →
      findComp s'.comps cid =
        some { comp with wallet_balance := comp.wallet_balance + a } ∧
      comp.wallet_balance < comp.wallet_balance + a) := by
  refine ⟨rfl, ?_, ?_, ?_, ?_, ?_, ?_, ?_⟩
  · rw [topupWallet_comps]
    exact hc
  · rw [withdrawFromWallet_comps]
    exact hc
  · exact findComp_append_left hc
  · exact findComp_updateStandings_balance s uid cid2 st md hc
  · exact findComp_payFee_monotone s uid cid2 a hc
  · exact findComp_payMatchdays_monotone s uid cid2 mds hc
  · intro r s' h
    cases hg : getBal s.users uid with
    | none => simp [payCompetitionFee, hg] at h
    | some bal =>
      by_cases ha : a ≤ 0
      · simp [payCompetitionFee, hg, ha] at h
      · by_cases hlt : bal < a
        · simp [payCompetitionFee, hg, ha, hlt] at h
        · by_cases hp : uid ∈ comp.participants
          · simp only [payCompetitionFee, hg, if_neg ha, if_neg hlt, hc,
              if_neg (not_not_intro hp)] at h
            rw [Prod.mk.injEq] at h
            obtain ⟨-, h2⟩ := h
            subst h2
            have ha2 : 0 < a := not_le.mp ha
            exact ⟨findComp_mapComp_self (fun c => rfl) hc, by omega⟩
          · simp [payCompetitionFee, hg, ha, hlt, hc, hp] at h

/-- Witness for `comp_wallet_monotone`: competition 5's wallet is
untouched by a withdrawal, and paying 30.00 € into it raises it from
0 to 3000 cents. -/
theorem comp_wallet_monotone_witness :
    (createCompetition payDemoState 1 77 {}).1.wallet_balance = 0 ∧
    findComp (withdrawFromWallet payDemoState 1 2000).2.comps 5 =
      some payDemoComp ∧
    (∀ r s', payCompetitionFee payDemoState 1 5 3000 = (.ok r, s') →
      findComp s'.comps 5 =
        some { payDemoComp with wallet_balance := payDemoComp.wallet_balance + 3000 } ∧
      payDemoComp.wallet_balance < payDemoComp.wallet_balance + 3000) := by
  have h := comp_wallet_monotone payDemoState 1 5 5 77 3000 {} [] none []
    payDemoComp rfl
  exact ⟨h.1, h.2.2.1, h.2.2.2.2.2.2.2⟩

/-- C3: spec-modelled batch rejection for `PayMatchdays` — with the
competition loaded, daily payments enabled and the caller a
participant: any out-of-range matchday fails the whole batch with
`InvalidMatchday` and changes nothing, and (with all matchdays in
range) any already-paid matchday fails the whole batch with
`Conflict("already paid")` and changes nothing — no balance and no
MatchdayPayment record moves in either case. -/
theorem payMatchdays_batch_rejection (s : LedgerState) (uid cid : Nat)
    (mds : List Nat) (bal : Int) (comp : Competition)
    (hu : getBal s.users uid = some bal)
    (hc : findComp s.comps cid = some comp)
    (hen : comp.daily_payment_enabled = true)
    (hp : uid ∈ comp.participants) :
    ((∃ m ∈ mds, m < 1 ∨ comp.total_matchdays < m) →
      payMatchdays s uid cid mds = (.error .invalidMatchday, s)) ∧
    ((∀ m ∈ mds, 1 ≤ m ∧ m ≤ comp.total_matchdays) →
     (∃ m ∈ mds, isPaid s.mdps uid cid m = true) →
      payMatchdays s uid cid mds = (.error (.conflict "already paid"), s)) := by
  have hen2 : ¬ comp.daily_payment_enabled = false := by simp [hen]
  constructor
  · intro hex
    have hany : mds.any (fun m => m < 1 ∨ comp.total_matchdays < m) = true := by
      rw [List.any_eq_true]
      obtain ⟨m, hm, hor⟩ := hex
      exact ⟨m, hm, by simpa using hor⟩
    simp only [payMatchdays, hu, hc, if_neg hen2, if_neg (not_not_intro hp),
      if_pos hany]
  · intro hall hex
    have hany1 : ¬ mds.any (fun m => m < 1 ∨ comp.total_matchdays < m) = true := by
      rw [List.any_eq_true]
      rintro ⟨m, hm, hdec⟩
      obtain ⟨h1, h2⟩ := hall m hm
      rw [decide_eq_true_eq] at hdec
      omega
    have hany2 : mds.any (fun m => isPaid s.mdps uid cid m) = true := by
      rw [List.any_eq_true]
      obtain ⟨m, hm, hpd⟩ := hex
      exact ⟨m, hm, hpd⟩
    simp only [payMatchdays, hu, hc, if_neg hen2, if_neg (not_not_intro hp),
      if_neg hany1, if_pos hany2]

/-- A daily-payment competition (id 5, 38 matchdays, 10.00 € per
matchday) with participant 1 holding 100.00 €. -/
def mdDemoComp : Competition :=
  ⟨5, 1, [1], 0, true, [], 1, 38, 21000, 8, 168000, true, 1000⟩

def mdDemoState : LedgerState := ⟨[(1, 10000)], [mdDemoComp], [], []⟩

/-- The state after successfully paying matchdays 1–3 (cost 30.00 €). -/
def mdDemoState2 : LedgerState := (payMatchdays mdDemoState 1 5 [1, 2, 3]).2

/-- Witness for `payMatchdays_batch_rejection`: the spec's scenario —
after paying `[1,2,3]` the balance is 70.00 €, and the batch `[2,3,4]`
is wholly rejected with `Conflict`, leaving the state unchanged. -/
theorem payMatchdays_batch_rejection_witness :
    getBal mdDemoState2.users 1 = some 7000 ∧
    payMatchdays mdDemoState2 1 5 [2, 3, 4] =
      (.error (.conflict "already paid"), mdDemoState2) := by
  refine ⟨by decide, ?_⟩
  exact (payMatchdays_batch_rejection mdDemoState2 1 5 [2, 3, 4] 7000
    { mdDemoComp with wallet_balance := 3000 }
    (by decide) (by decide) rfl (by decide)).2 (by decide) (by decide)

end FantaPay
